import Mathlib

/-!
# canvas-proxy: the request handler of `main.go`

A shallow embedding of `reqHandler` (main.go, lines 13-109) and of the parts of
the Go standard library it calls (`net/url`, `regexp`, `net/http`).

Conventions of the embedding.

* Go strings are Lean `String`s; the library models work on their `List Char`.
  Go strings that are not valid UTF-8 have no counterpart here; where
  percent-decoding produces such bytes they are shown as U+FFFD.
* `url.Values` and `http.Header` are Go maps from a key to a list of values.
  They are association lists with pairwise different keys; everything the
  handler does with them is independent of the order of the entries.
* The network is a parameter: `Upstream` answers what `http.Client.Do` and
  `io.ReadAll` return for an outbound request.
* `http.ResponseWriter` is the record of what the handler hands to it: the
  header map at the time of `WriteHeader`, the status code, the bytes written.
  `WriteHeader` panics on a code that has not three digits; the run then ends
  before `Write`.
* Logging (`log.Println`) has no effect on the response and is left out.
-/

namespace CanvasProxy

/-! ## Maps from keys to lists of values (`url.Values`, `http.Header`) -/

/-- A Go `map[string][]string`. -/
abbrev Values := List (String × List String)

/-- The value list stored under `key` (`v[key]`, `nil` when absent). -/
def Values.lookupAll : Values → String → List String
  | [], _ => []
  | (k, vs) :: rest, key => if k = key then vs else Values.lookupAll rest key

/-- Whether `key` is a key of the map. -/
def Values.Has : Values → String → Bool
  | [], _ => false
  | (k, _) :: rest, key => if k = key then true else Values.Has rest key

/-- Go `Values.Get`: the first value under `key`, or `""` when there is none. -/
def Values.Get (v : Values) (key : String) : String :=
  match v.lookupAll key with
  | [] => ""
  | x :: _ => x

/-- Go `Values.Add`: `v[key] = append(v[key], value)`. -/
def Values.Add : Values → String → String → Values
  | [], key, value => [(key, [value])]
  | (k, vs) :: rest, key, value =>
    if k = key then (k, vs ++ [value]) :: rest
    else (k, vs) :: Values.Add rest key value

/-- Go `Header.Set`: `h[key] = []string{value}`. -/
def Values.Set : Values → String → String → Values
  | [], key, value => [(key, [value])]
  | (k, vs) :: rest, key, value =>
    if k = key then (k, [value]) :: rest
    else (k, vs) :: Values.Set rest key value

/-- The keys of the map (`for key := range v`). -/
def Values.keys (v : Values) : List String := v.map Prod.fst

/-! ## `url.QueryEscape` and `Values.Encode` -/

/-- The UTF-8 bytes of a character. -/
def utf8Bytes (c : Char) : List Nat :=
  let n := c.toNat
  if n < 0x80 then [n]
  else if n < 0x800 then [0xC0 + n / 64, 0x80 + n % 64]
  else if n < 0x10000 then [0xE0 + n / 4096, 0x80 + n / 64 % 64, 0x80 + n % 64]
  else [0xF0 + n / 262144, 0x80 + n / 4096 % 64, 0x80 + n / 64 % 64, 0x80 + n % 64]

/-- ASCII letter or digit. -/
def isAlnumByte (b : Nat) : Bool :=
  (48 ≤ b && b ≤ 57) || (65 ≤ b && b ≤ 90) || (97 ≤ b && b ≤ 122)

/-- Go `shouldEscape(c, encodeQueryComponent)`: everything but the unreserved
characters (letters, digits, `-`, `_`, `.`, `~`) is escaped. -/
def shouldEscapeQuery (b : Nat) : Bool :=
  !(isAlnumByte b || b = 45 || b = 95 || b = 46 || b = 126)

/-- Upper-case hexadecimal digit. -/
def upperHex (n : Nat) : Char := "0123456789ABCDEF".toList.getD n '0'

/-- One byte as `QueryEscape` writes it. -/
def escapeQueryByte (b : Nat) : List Char :=
  if b = 32 then ['+']
  else if shouldEscapeQuery b then ['%', upperHex (b / 16), upperHex (b % 16)]
  else [Char.ofNat b]

/-- Go `url.QueryEscape`. -/
def QueryEscape (s : String) : String :=
  String.mk ((s.toList.flatMap utf8Bytes).flatMap escapeQueryByte)

/-- Byte-wise order of Go strings (on UTF-8 it is the order of code points). -/
def strLe : List Char → List Char → Bool
  | [], _ => true
  | _ :: _, [] => false
  | a :: s, b :: t => if a.toNat < b.toNat then true else if b.toNat < a.toNat then false else strLe s t

/-- Insertion into a sorted list of keys. -/
def insertKey (k : String) : List String → List String
  | [] => [k]
  | x :: xs => if strLe k.toList x.toList then k :: x :: xs else x :: insertKey k xs

/-- Go `slices.Sort(keys)`. -/
def sortKeys (ks : List String) : List String := ks.foldr insertKey []

/-- Pieces joined with `&`. -/
def joinAmp : List String → String
  | [] => ""
  | [x] => x
  | x :: y :: rest => x ++ "&" ++ joinAmp (y :: rest)

/-- Go `Values.Encode`: `key=value` pairs, keys sorted, values of a key in
their stored order, keys and values query-escaped, joined with `&`. -/
def Values.Encode (v : Values) : String :=
  joinAmp ((sortKeys v.keys).flatMap fun k =>
    (v.lookupAll k).map fun x => QueryEscape k ++ "=" ++ QueryEscape x)

/-! ## `regexp`: the syntax the pattern of `main.go` uses, and matching -/

/-- One-position matchers: empty-width assertions and single characters. -/
inductive Atom where
  | beginText
  | endText
  | beginLine
  | endLine
  | lit (c : Char)
  | range (lo hi : Char)
deriving DecidableEq, Repr

/-- An atom, taken once or one or more times (`+`). -/
inductive Inst where
  | one (a : Atom)
  | plus (a : Atom)
deriving DecidableEq, Repr

/-- Tokens of a pattern. -/
inductive Tok where
  | atom (a : Atom)
  | plusOp
deriving DecidableEq, Repr

/-- Characters with a meaning of their own in a pattern that this model does
not implement. -/
def unsupportedMeta (c : Char) : Bool :=
  c = '.' || c = '*' || c = '?' || c = '(' || c = ')' || c = '|' ||
  c = '[' || c = ']' || c = '{' || c = '}'

/-- Tokens of a pattern body. With the flag `m`, `^` and `$` are the line
assertions, without it the text assertions. A backslash before an ASCII
character that is no letter or digit makes that character a literal. A class
is one range `[lo-hi]`. Syntax of Go regular expressions beyond that
(groups, alternation, `.`, `*`, `?`, counted repetition, other classes and
escapes) is reported as an error. -/
def tokenize (multi : Bool) : List Char → Except String (List Tok)
  | [] => .ok []
  | '\\' :: c :: t =>
    if c.toNat < 128 && !isAlnumByte c.toNat then
      (tokenize multi t).map (Tok.atom (.lit c) :: ·)
    else .error "unsupported escape sequence"
  | '[' :: lo :: '-' :: hi :: ']' :: t =>
    if isAlnumByte lo.toNat && isAlnumByte hi.toNat && lo.toNat ≤ hi.toNat then
      (tokenize multi t).map (Tok.atom (.range lo hi) :: ·)
    else .error "unsupported character class"
  | c :: t =>
    if c = '^' then
      (tokenize multi t).map (Tok.atom (if multi then .beginLine else .beginText) :: ·)
    else if c = '$' then
      (tokenize multi t).map (Tok.atom (if multi then .endLine else .endText) :: ·)
    else if c = '+' then (tokenize multi t).map (Tok.plusOp :: ·)
    else if c = '\\' then .error "trailing backslash at end of expression"
    else if unsupportedMeta c then .error "unsupported syntax"
    else (tokenize multi t).map (Tok.atom (.lit c) :: ·)

/-- Repetition operators attached to the atom before them. -/
def attach : List Tok → Except String (List Inst)
  | [] => .ok []
  | .plusOp :: _ => .error "missing argument to repetition operator"
  | .atom _ :: .plusOp :: .plusOp :: _ => .error "invalid nested repetition operator"
  | .atom a :: .plusOp :: t => (attach t).map (Inst.plus a :: ·)
  | .atom a :: t => (attach t).map (Inst.one a :: ·)

/-- Go `regexp.Compile`, for the syntax above; a leading `(?m)` sets the
multi-line flag for the whole pattern. -/
def Compile (pattern : String) : Except String (List Inst) :=
  match pattern.toList with
  | '(' :: '?' :: 'm' :: ')' :: body => (tokenize true body).bind attach
  | body => (tokenize false body).bind attach

/-- A position in the text: the character before it (none at the start of the
text) and the text from it on. -/
structure Pos where
  prev : Option Char
  rest : List Char
deriving DecidableEq, Repr

/-- An atom at a position: the position after it, when it matches. -/
def stepAtom : Atom → Pos → Option Pos
  | .beginText, p => match p.prev with
    | none => some p
    | some _ => none
  | .endText, p => match p.rest with
    | [] => some p
    | _ :: _ => none
  | .beginLine, p => match p.prev with
    | none => some p
    | some c => if c = '\n' then some p else none
  | .endLine, p => match p.rest with
    | [] => some p
    | c :: _ => if c = '\n' then some p else none
  | .lit c, p => match p.rest with
    | [] => none
    | d :: t => if d = c then some ⟨some d, t⟩ else none
  | .range lo hi, p => match p.rest with
    | [] => none
    | d :: t => if lo.toNat ≤ d.toNat ∧ d.toNat ≤ hi.toNat then some ⟨some d, t⟩ else none

/-- The positions after one or more repetitions of an atom. A repetition
that consumes nothing ends the iteration; `fuel` bounds the number of
repetitions and is taken larger than the length of the text. -/
def stepPlus (a : Atom) : Nat → Pos → List Pos
  | 0, _ => []
  | fuel + 1, p =>
    match stepAtom a p with
    | none => []
    | some q => q :: (if q.rest.length < p.rest.length then stepPlus a fuel q else [])

/-- Whether the program matches starting at the position. -/
def runInsts : List Inst → Pos → Bool
  | [], _ => true
  | .one a :: is, p =>
    match stepAtom a p with
    | none => false
    | some q => runInsts is q
  | .plus a :: is, p => (stepPlus a (p.rest.length + 1) p).any (runInsts is)

/-- Whether the program matches starting at some position of the text
(an unanchored search, as `MatchString` does). -/
def search (prog : List Inst) : Option Char → List Char → Bool
  | prev, [] => runInsts prog ⟨prev, []⟩
  | prev, c :: t => runInsts prog ⟨prev, c :: t⟩ || search prog (some c) t

/-- Go `regexp.MatchString`: an error when the pattern does not compile,
else whether the text contains a match. -/
def MatchString (pattern s : String) : Except String Bool :=
  match Compile pattern with
  | .error e => .error e
  | .ok prog => .ok (search prog none s.toList)

/-- The constant of main.go, line 11. -/
def CANVAS_DOMAIN_PATTERN : String := "(?m)^[a-z]+\\.instructure\\.com$"

/-! ## `net/url.Parse` and `http.NewRequest` -/

/-- ASCII control byte (`stringContainsCTLByte`). -/
def isCTL (c : Char) : Bool := c.toNat < 32 || c.toNat = 127

/-- Go `strings.Cut` at a one-character separator: the text before the first
separator, the text after it, and whether there is one. -/
def cutAt (sep : Char) : List Char → List Char × List Char × Bool
  | [] => ([], [], false)
  | c :: t =>
    if c = sep then ([], t, true)
    else ((c :: (cutAt sep t).1), (cutAt sep t).2.1, (cutAt sep t).2.2)

/-- The text after the last separator and the text before it, when the
separator occurs (`strings.LastIndex`). -/
def cutLast (sep : Char) : List Char → Option (List Char × List Char)
  | [] => none
  | c :: t =>
    match cutLast sep t with
    | some (before, after) => some (c :: before, after)
    | none => if c = sep then some ([], t) else none

/-- ASCII letter. -/
def isLetter (c : Char) : Bool :=
  (65 ≤ c.toNat && c.toNat ≤ 90) || (97 ≤ c.toNat && c.toNat ≤ 122)

/-- ASCII digit. -/
def isDigit (c : Char) : Bool := 48 ≤ c.toNat && c.toNat ≤ 57

/-- Hexadecimal digit (`ishex`). -/
def isHex (c : Char) : Bool :=
  isDigit c || (97 ≤ c.toNat && c.toNat ≤ 102) || (65 ≤ c.toNat && c.toNat ≤ 70)

/-- Go `getScheme`: `seen` is the text read so far, all of it letters, digits,
`+`, `-` or `.`. -/
def getSchemeFrom (raw : List Char) : List Char → List Char → Except String (List Char × List Char)
  | _, [] => .ok ([], raw)
  | seen, c :: t =>
    if isLetter c then getSchemeFrom raw (seen ++ [c]) t
    else if isDigit c || c = '+' || c = '-' || c = '.' then
      if seen = [] then .ok ([], raw) else getSchemeFrom raw (seen ++ [c]) t
    else if c = ':' then
      if seen = [] then .error "missing protocol scheme" else .ok (seen, t)
    else .ok ([], raw)

/-- ASCII lower-casing (`strings.ToLower` on a scheme). -/
def lowerASCII (c : Char) : Char :=
  if 65 ≤ c.toNat && c.toNat ≤ 90 then Char.ofNat (c.toNat + 32) else c

/-- The percent-escapes of a text are well formed: each `%` has two
hexadecimal digits after it (`unescape` reports `invalid URL escape`
otherwise). -/
def escapesOK : List Char → Bool
  | [] => true
  | '%' :: a :: b :: t => isHex a && isHex b && escapesOK t
  | '%' :: _ => false
  | _ :: t => escapesOK t

/-- Value of a hexadecimal digit (`unhex`), on bytes. -/
def hexVal (b : Nat) : Nat :=
  if 48 ≤ b ∧ b ≤ 57 then b - 48
  else if 97 ≤ b ∧ b ≤ 102 then b - 97 + 10
  else if 65 ≤ b ∧ b ≤ 70 then b - 65 + 10
  else 0

/-- Every `%XX` of a byte string replaced by the byte it stands for. -/
def unescapeBytes : List Nat → List Nat
  | [] => []
  | 37 :: a :: b :: t => (hexVal a * 16 + hexVal b) :: unescapeBytes t
  | x :: t => x :: unescapeBytes t

/-- Continuation byte of UTF-8. -/
def isCont (b : Nat) : Bool := 128 ≤ b && b < 192

/-- The first character of a byte string read as UTF-8 and the number of
bytes it takes. A byte that starts no well-formed sequence is shown as U+FFFD
and takes one byte, as a Go `range` over the string shows it; the Go string
itself keeps the byte. -/
def decodeFirst : List Nat → Char × Nat
  | [] => (Char.ofNat 0xFFFD, 1)
  | [b0] => if b0 < 128 then (Char.ofNat b0, 1) else (Char.ofNat 0xFFFD, 1)
  | b0 :: b1 :: t2 =>
    let c2 := (b0 - 192) * 64 + (b1 - 128)
    let c3 := (b0 - 224) * 4096 + (b1 - 128) * 64 + (t2.headD 0 - 128)
    let c4 := (b0 - 240) * 262144 + (b1 - 128) * 4096 + (t2.headD 0 - 128) * 64 +
      ((t2.drop 1).headD 0 - 128)
    if b0 < 128 then (Char.ofNat b0, 1)
    else if 194 ≤ b0 && b0 < 224 && isCont b1 then (Char.ofNat c2, 2)
    else if 224 ≤ b0 && b0 < 240 && isCont b1 && isCont (t2.headD 0) && 0x800 ≤ c3 &&
        !(0xD800 ≤ c3 && c3 < 0xE000) then (Char.ofNat c3, 3)
    else if 240 ≤ b0 && b0 < 245 && isCont b1 && isCont (t2.headD 0) &&
        isCont ((t2.drop 1).headD 0) && 0x10000 ≤ c4 && c4 < 0x110000 then (Char.ofNat c4, 4)
    else (Char.ofNat 0xFFFD, 1)

/-- The characters of a byte string read as UTF-8; every step takes at least
one byte, so a fuel equal to the number of bytes is enough. -/
def decodeUTF8From : Nat → List Nat → List Char
  | 0, _ => []
  | _, [] => []
  | fuel + 1, b :: t =>
    (decodeFirst (b :: t)).1 :: decodeUTF8From fuel ((b :: t).drop (decodeFirst (b :: t)).2)

/-- The characters of a byte string read as UTF-8. -/
def decodeUTF8 (bs : List Nat) : List Char := decodeUTF8From bs.length bs

/-- Go `unescape` on a text whose escapes were checked: a text without `%` is
returned as it is, otherwise every `%XX` becomes the byte it stands for. -/
def unescapeText (s : List Char) : List Char :=
  if s.contains '%' then decodeUTF8 (unescapeBytes (s.flatMap utf8Bytes)) else s

/-- Characters that `net/url` accepts unescaped in a host. -/
def hostCharOK (c : Char) : Bool :=
  128 ≤ c.toNat || isAlnumByte c.toNat ||
  "!$&'()*+,;=:[]<>\"-_.~".toList.contains c

/-- Escapes in a host: well formed, and only of bytes from 0x80 on, or `%25`. -/
def hostEscapesOK : List Char → Bool
  | [] => true
  | '%' :: a :: b :: t =>
    isHex a && isHex b && (!(isDigit a && a.toNat < 56) || (a = '2' && b = '5')) && hostEscapesOK t
  | '%' :: _ => false
  | c :: t => hostCharOK c && hostEscapesOK t

/-- Go `validOptionalPort`: empty, or a colon and digits. -/
def validOptionalPort : List Char → Bool
  | [] => true
  | c :: t => c = ':' && t.all isDigit

/-- Go `validUserinfo`. -/
def validUserinfo (s : List Char) : Bool :=
  s.all fun c => isAlnumByte c.toNat || "-._:~!$&'()*+,;=%@".toList.contains c

/-- Go `parseHost`. Of a bracketed IP literal only the closing bracket and the
port after it are checked. -/
def parseHost (host : List Char) : Except String (List Char) :=
  match host with
  | '[' :: _ =>
    match cutLast ']' host with
    | none => .error "missing ']' in host"
    | some (_, colonPort) =>
      if validOptionalPort colonPort then .ok (unescapeText host)
      else .error "invalid port after host"
  | _ =>
    let portOK := match cutLast ':' host with
      | none => true
      | some (_, port) => validOptionalPort (':' :: port)
    if !portOK then .error "invalid port after host"
    else if hostEscapesOK host then .ok (unescapeText host)
    else .error "invalid character or escape in host name"

/-- Go `parseAuthority`: user information before the last `@` (kept as one
text `username[:password]`), host after. -/
def parseAuthority (authority : List Char) : Except String (Option (List Char) × List Char) :=
  match cutLast '@' authority with
  | none => (parseHost authority).map fun h => (none, h)
  | some (userinfo, host) =>
    match parseHost host with
    | .error e => .error e
    | .ok h =>
      if !validUserinfo userinfo then .error "net/url: invalid userinfo"
      else if !escapesOK userinfo then .error "invalid URL escape"
      else .ok (some (unescapeText userinfo), h)

/-- A parsed URL (`url.URL`): user, host, path and fragment with their
percent-escapes decoded, the query as it is written. -/
structure URL where
  Scheme : String
  Opaque : String
  User : Option String
  Host : String
  Path : String
  ForceQuery : Bool
  RawQuery : String
  Fragment : String
deriving DecidableEq, Repr

/-- Go `url.parse(rawURL, false)`, the URL without its fragment. -/
def parseNoFragment (rawURL : List Char) : Except String URL :=
  if rawURL.any isCTL then .error "net/url: invalid control character in URL"
  else if rawURL = ['*'] then .ok ⟨"", "", none, "", "*", false, "", ""⟩
  else
    match getSchemeFrom rawURL [] rawURL with
    | .error e => .error e
    | .ok (scheme0, rest0) =>
      let scheme := scheme0.map lowerASCII
      let force := rest0.getLast? = some '?' && rest0.count '?' = 1
      let rest := if force then rest0.dropLast else (cutAt '?' rest0).1
      let rawQuery := if force then [] else (cutAt '?' rest0).2.1
      if rest.head? ≠ some '/' && scheme ≠ [] then
        .ok ⟨String.mk scheme, String.mk rest, none, "", "", force, String.mk rawQuery, ""⟩
      else if rest.head? ≠ some '/' && (cutAt '/' rest).1.contains ':' then
        .error "first path segment in URL cannot contain colon"
      else
        match rest with
        | '/' :: '/' :: afterSlashes =>
          if scheme ≠ [] || afterSlashes.head? ≠ some '/' then
            let authority := (cutAt '/' afterSlashes).1
            let path := afterSlashes.drop authority.length
            match parseAuthority authority with
            | .error e => .error e
            | .ok (user, host) =>
              if escapesOK path then
                .ok ⟨String.mk scheme, "", user.map String.mk, String.mk host,
                  String.mk (unescapeText path), force, String.mk rawQuery, ""⟩
              else .error "invalid URL escape"
          else if escapesOK rest then
            .ok ⟨String.mk scheme, "", none, "", String.mk (unescapeText rest), force,
              String.mk rawQuery, ""⟩
          else .error "invalid URL escape"
        | _ =>
          if escapesOK rest then
            .ok ⟨String.mk scheme, "", none, "", String.mk (unescapeText rest), force,
              String.mk rawQuery, ""⟩
          else .error "invalid URL escape"

/-- Go `url.Parse`: the fragment is cut off at the first `#` before the rest is
parsed; its escapes are checked and decoded. -/
def urlParse (rawURL : String) : Except String URL :=
  match parseNoFragment (cutAt '#' rawURL.toList).1 with
  | .error e => .error e
  | .ok u =>
    let frag := (cutAt '#' rawURL.toList).2.1
    if escapesOK frag then .ok { u with Fragment := String.mk (unescapeText frag) }
    else .error "invalid URL escape"

/-- An outbound request (`*http.Request` built by `http.NewRequest`). -/
structure OutRequest where
  Method : String
  URL : URL
  Header : Values
deriving DecidableEq, Repr

/-- Go `removeEmptyPort`: a host ending in a colon loses it. -/
def removeEmptyPort (host : String) : String :=
  if host.toList.getLast? = some ':' then String.mk host.toList.dropLast else host

/-- Go `http.NewRequest(method, url, nil)` for the method of `main.go`: the
URL is parsed, the header map starts empty. -/
def NewRequest (method url : String) : Except String OutRequest :=
  match urlParse url with
  | .error e => .error e
  | .ok u => .ok ⟨method, { u with Host := removeEmptyPort u.Host }, []⟩

/-! ## The handler -/

/-- The inbound request: its method, `req.URL.Path`, and the key-value pairs
of its query string in the order in which they are written. -/
structure Request where
  Method : String
  Path : String
  params : List (String × String)
deriving DecidableEq, Repr

/-- Go `req.URL.Query()`: the pairs collected in a map, key by key in order. -/
def Request.Query (req : Request) : Values :=
  req.params.foldl (fun v kv => Values.Add v kv.1 kv.2) []

/-- What `http.Client.Do` returned: status code, headers, and the body as
`io.ReadAll` reads it (an error when reading fails). -/
structure UpstreamResponse where
  StatusCode : Nat
  Header : Values
  Body : Except String String

/-- The network: what `client.Do` answers to an outbound request. -/
abbrev Upstream := OutRequest → Except String UpstreamResponse

/-- What the handler hands to its `http.ResponseWriter`: the header map, the
code passed to `WriteHeader`, the bytes passed to `Write`. -/
structure Response where
  Header : Values
  Status : Nat
  Body : String
deriving DecidableEq, Repr

/-- One run of the handler: the request given to `client.Do`, if the handler
got that far, the response, and whether the run ended in the panic of
`WriteHeader`; `Write` is then never reached and the body stays empty. -/
structure Outcome where
  sent : Option OutRequest
  response : Response
  panicked : Bool
deriving DecidableEq, Repr

/-- Go `checkWriteHeaderCode`: `WriteHeader` panics on a code that has not
three digits. -/
def validStatus (code : Nat) : Bool := 100 ≤ code && code ≤ 999

/-- An error response: `w.WriteHeader(status)` and `io.WriteString(w, body)`
on a writer whose header map is untouched. -/
def errorResponse (status : Nat) (body : String) : Response := ⟨[], status, body⟩

/-- Lines 64-70 of main.go: `canvas_query` starts as `req.URL.Query()`, and
for every key of the query other than the two reserved ones the first value
of the key is added to it. -/
def canvasQuery (req : Request) : Values :=
  req.Query.keys.foldl
    (fun canvas_query key =>
      if key ≠ "access_token" ∧ key ≠ "canvas_domain" then
        Values.Add canvas_query key (req.Query.Get key)
      else canvas_query)
    req.Query

/-- Lines 92-104 of main.go: the header map of the response that relays an
upstream response. -/
def relayHeader (statusCode : Nat) (header : Values) : Values :=
  let link_header := header.Get "Link"
  let h0 : Values := []
  let h1 := if link_header ≠ "" then Values.Set h0 "Link" link_header else h0
  let h2 := if statusCode = 200 then Values.Set h1 "Content-Type" "application/json" else h1
  let h3 := Values.Set h2 "Access-Control-Allow-Origin" "app://obsidian.md"
  Values.Set h3 "Access-Control-Expose-Headers" "Link"

/-- Lines 92-108 of main.go: the header map is filled, then
`w.WriteHeader(canvas_resp.StatusCode)` and `w.Write(canvas_resp_body)`. -/
def relayResponse (sent : OutRequest) (statusCode : Nat) (header : Values) (body : String) :
    Outcome :=
  if validStatus statusCode then ⟨some sent, ⟨relayHeader statusCode header, statusCode, body⟩, false⟩
  else ⟨some sent, ⟨relayHeader statusCode header, statusCode, ""⟩, true⟩

/-- The handler `reqHandler` of main.go. -/
def reqHandler (client : Upstream) (req : Request) : Outcome :=
  let canvas_domain := req.Query.Get "canvas_domain"
  if canvas_domain = "" then
    ⟨none, errorResponse 400 "missing canvas_domain query parameter", false⟩
  else
    match MatchString CANVAS_DOMAIN_PATTERN canvas_domain with
    | .error _ =>
      ⟨none, errorResponse 500 "something went wrong while parsing the Canvas domain", false⟩
    | .ok false => ⟨none, errorResponse 400 "canvas_domain has bad format", false⟩
    | .ok true =>
      let access_token := req.Query.Get "access_token"
      if access_token = "" then
        ⟨none, errorResponse 400 "missing access_token query parameter", false⟩
      else
        let request_domain := "https://" ++ canvas_domain ++ "/api/v1" ++ req.Path
        match NewRequest "GET" request_domain with
        | .error _ =>
          ⟨none, errorResponse 500
            "something went wrong while forming the request to send to Canvas", false⟩
        | .ok r0 =>
          let r1 : OutRequest :=
            { r0 with Header := Values.Add r0.Header "Authorization" ("Bearer " ++ access_token) }
          let canvas_req : OutRequest :=
            { r1 with URL := { r1.URL with RawQuery := (canvasQuery req).Encode } }
          match client canvas_req with
          | .error _ =>
            ⟨some canvas_req, errorResponse 500
              "something went wrong while sending the request to send to Canvas", false⟩
          | .ok canvas_resp =>
            match canvas_resp.Body with
            | .error _ =>
              ⟨some canvas_req, errorResponse 500
                "something went wrong while reading the Canvas response body", false⟩
            | .ok canvas_resp_body =>
              relayResponse canvas_req canvas_resp.StatusCode canvas_resp.Header canvas_resp_body

/-! ## Vocabulary of the specification -/

/-- Lowercase ASCII letter. -/
def isLower (c : Char) : Bool := 97 ≤ c.toNat && c.toNat ≤ 122

/-- The text `.instructure.com`. -/
def domainSuffix : List Char := ".instructure.com".toList

/-- One or more lowercase ASCII letters followed by exactly `.instructure.com`,
nothing before or after: the pattern `^[a-z]+\.instructure\.com$` read on a
whole value. -/
def HostName (l : List Char) : Prop :=
  ∃ letters, letters ≠ [] ∧ (∀ c ∈ letters, isLower c = true) ∧ l = letters ++ domainSuffix

/-- `HostName` is decided on the leading lowercase letters of the text. -/
instance HostName.decide (l : List Char) : Decidable (HostName l) :=
  decidable_of_iff (l.takeWhile isLower ≠ [] ∧ l.dropWhile isLower = domainSuffix) (by
    constructor
    · rintro ⟨h1, h2⟩
      refine ⟨l.takeWhile isLower, h1, fun c hc => (List.mem_takeWhile_imp hc), ?_⟩
      rw [← h2, List.takeWhile_append_dropWhile]
    · rintro ⟨letters, h1, h2, rfl⟩
      have htake : (letters ++ domainSuffix).takeWhile isLower = letters := by
        rw [List.takeWhile_append_of_pos (fun c hc => h2 c hc)]
        simp [domainSuffix, List.takeWhile, isLower]
      have hdrop : (letters ++ domainSuffix).dropWhile isLower = domainSuffix := by
        have := List.takeWhile_append_dropWhile isLower (letters ++ domainSuffix)
        rw [htake] at this
        exact List.append_cancel_left this
      exact ⟨by rw [htake]; exact h1, hdrop⟩)

/-- The lines of a text, delimited by line feeds. -/
def linesLF (l : List Char) : List (List Char) := l.splitOn '\n'

/-- A path that `net/url` takes over as it stands: no ASCII control character,
no `#`, no `?` and no `%`. -/
def PlainPath (p : List Char) : Prop :=
  ∀ c ∈ p, isCTL c = false ∧ c ≠ '#' ∧ c ≠ '?' ∧ c ≠ '%'

/-- `PlainPath` is decided character by character. -/
instance PlainPath.decide (p : List Char) : Decidable (PlainPath p) := by
  unfold PlainPath
  infer_instance

/-- The request the handler hands to `client.Do`, if any; it does not depend
on what the network answers. -/
def outbound (req : Request) : Option OutRequest :=
  (reqHandler (fun _ => .error "") req).sent

/-- An upstream that answers every request with `200` and the body `[]`. -/
def upstreamOK : Upstream := fun _ => .ok ⟨200, [], .ok "[]"⟩

/-! ## Auxiliary definitions for the proofs -/

/-- The program that the pattern of main.go compiles to. -/
def canvasProg : List Inst :=
  .one .beginLine :: .plus (.range 'a' 'z') ::
    (domainSuffix.map (fun c => Inst.one (.lit c)) ++ [.one .endLine])

/-- A position is at the start of a line. -/
def lineStart : Option Char → Bool
  | none => true
  | some c => c = '\n'

/-- The run once a request has been handed to the client (main.go, lines 75-108). -/
def afterSend (sent : OutRequest) (answer : Except String UpstreamResponse) : Outcome :=
  match answer with
  | .error _ =>
    ⟨some sent, errorResponse 500
      "something went wrong while sending the request to send to Canvas", false⟩
  | .ok canvas_resp =>
    match canvas_resp.Body with
    | .error _ =>
      ⟨some sent, errorResponse 500
        "something went wrong while reading the Canvas response body", false⟩
    | .ok body => relayResponse sent canvas_resp.StatusCode canvas_resp.Header body

/-- The handler relayed an upstream response: it handed a request to the
client, the client answered, and the body was read without error. -/
def Relayed (client : Upstream) (req : Request) : Prop :=
  ∃ r resp body, (reqHandler client req).sent = some r ∧ client r = .ok resp ∧
    resp.Body = .ok body

/-! ## Example requests and upstreams -/

/-- A request for `/courses` with the two required parameters. -/
def reqCourses : Request :=
  ⟨"GET", "/courses", [("canvas_domain", "school.instructure.com"), ("access_token", "abc")]⟩

/-- The same request with a further parameter `per_page=50`. -/
def reqPerPage : Request :=
  ⟨"GET", "/courses",
    [("canvas_domain", "school.instructure.com"), ("access_token", "abc"), ("per_page", "50")]⟩

/-- A `POST` request with the two required parameters. -/
def reqPost : Request :=
  ⟨"POST", "/courses", [("canvas_domain", "school.instructure.com"), ("access_token", "abc")]⟩

/-- A request with the given `canvas_domain` value and an access token. -/
def reqWithDomain (d : String) : Request :=
  ⟨"GET", "/courses", [("canvas_domain", d), ("access_token", "abc")]⟩

/-- A request for the given path with the two required parameters. -/
def reqWithPath (p : String) : Request :=
  ⟨"GET", p, [("canvas_domain", "school.instructure.com"), ("access_token", "abc")]⟩

/-- A request without `canvas_domain`. -/
def reqNoDomain : Request := ⟨"GET", "/courses", [("access_token", "abc")]⟩

/-- A request without `access_token`. -/
def reqNoToken : Request := ⟨"GET", "/courses", [("canvas_domain", "school.instructure.com")]⟩

/-- The outbound request that `reqCourses` leads to. -/
def sentCourses : OutRequest :=
  ⟨"GET",
    ⟨"https", "", none, "school.instructure.com", "/api/v1/courses", false,
      "access_token=abc&canvas_domain=school.instructure.com", ""⟩,
    [("Authorization", ["Bearer abc"])]⟩

/-- The outbound request that the `canvas_domain` value
`evil.com/#\nschool.instructure.com` leads to. -/
def sentBypass : OutRequest :=
  ⟨"GET",
    ⟨"https", "", none, "evil.com", "/", false,
      "access_token=abc&canvas_domain=evil.com%2F%23%0Aschool.instructure.com",
      "\nschool.instructure.com/api/v1/courses"⟩,
    [("Authorization", ["Bearer abc"])]⟩

/-- An upstream response `200` with a `Link` header. -/
def respLink : UpstreamResponse :=
  ⟨200, [("Link", ["<https://school.instructure.com/api/v1/courses?page=2>; rel=next"])],
    .ok "[1]"⟩

/-- An upstream that answers every request with `respLink`. -/
def upstreamLink : Upstream := fun _ => .ok respLink

/-- An upstream response `200` with two `Link` values. -/
def respTwoLinks : UpstreamResponse :=
  ⟨200, [("Link", ["<https://a>; rel=next", "<https://b>; rel=prev"])], .ok "[1]"⟩

/-- An upstream response `200` whose first `Link` value is empty. -/
def respEmptyFirstLink : UpstreamResponse :=
  ⟨200, [("Link", ["", "<https://b>; rel=prev"])], .ok "[1]"⟩

/-- An upstream response with the status line `HTTP/1.1 099`. -/
def respBadStatus : UpstreamResponse := ⟨99, [], .ok "[1]"⟩

/-- An upstream response `404` with a content type of its own. -/
def respNotFound : UpstreamResponse :=
  ⟨404, [("Content-Type", ["text/html"])], .ok "not found"⟩

/-- An upstream that answers every request with `respNotFound`. -/
def upstreamNotFound : Upstream := fun _ => .ok respNotFound

/-! ## The pattern of main.go and what it accepts -/

theorem compile_pattern : Compile CANVAS_DOMAIN_PATTERN = .ok canvasProg := rfl

theorem matchString_pattern (d : String) :
    MatchString CANVAS_DOMAIN_PATTERN d = .ok (search canvasProg none d.toList) := by
  simp [MatchString, compile_pattern]

theorem runInsts_lits (cs : List Char) (pv : Option Char) (r : List Char) :
    runInsts (cs.map (fun c => Inst.one (.lit c)) ++ [.one .endLine]) ⟨pv, r⟩ = true ↔
      ∃ suf, r = cs ++ suf ∧ (suf = [] ∨ ∃ t, suf = '\n' :: t) := by
  induction cs generalizing pv r with
  | nil =>
    cases r with
    | nil => simp [runInsts, stepAtom]
    | cons d t =>
      by_cases h : d = '\n'
      · subst h; simp [runInsts, stepAtom]
      · simp [runInsts, stepAtom, h]
  | cons c cs ih =>
    cases r with
    | nil => simp [runInsts, stepAtom]
    | cons d t =>
      by_cases h : d = c
      · subst h; simp [runInsts, stepAtom, ih]
      · simp [runInsts, stepAtom, h]

theorem runInsts_lits_prev (cs : List Char) (a b : Option Char) (r : List Char) :
    runInsts (cs.map (fun c => Inst.one (.lit c)) ++ [.one .endLine]) ⟨a, r⟩ =
      runInsts (cs.map (fun c => Inst.one (.lit c)) ++ [.one .endLine]) ⟨b, r⟩ := by
  rw [Bool.eq_iff_iff, runInsts_lits, runInsts_lits]

theorem any_stepPlus_lower (f : Pos → Bool) (hf : ∀ a b r, f ⟨a, r⟩ = f ⟨b, r⟩) :
    ∀ (fuel : Nat) (pv : Option Char) (r : List Char), r.length < fuel →
      ((stepPlus (.range 'a' 'z') fuel ⟨pv, r⟩).any f = true ↔
        ∃ pre r', pre ≠ [] ∧ (∀ c ∈ pre, isLower c = true) ∧ r = pre ++ r' ∧
          f ⟨none, r'⟩ = true) := by
  intro fuel
  induction fuel with
  | zero => intro pv r h; simp at h
  | succ n ih =>
    intro pv r h
    cases r with
    | nil =>
      simp only [stepPlus, stepAtom, List.any_nil, Bool.false_eq_true, false_iff]
      rintro ⟨pre, r', hp, -, he, -⟩
      cases pre with
      | nil => exact hp rfl
      | cons x pre' => simp at he
    | cons d t =>
      have ht : t.length < n := by simpa using h
      by_cases hd : isLower d = true
      · have hd' : 'a'.toNat ≤ d.toNat ∧ d.toNat ≤ 'z'.toNat := by
          simpa [isLower] using hd
        simp only [stepPlus, stepAtom, hd', and_self, if_true, List.length_cons,
          Nat.lt_succ_self, List.any_cons, Bool.or_eq_true, ih (some d) t ht]
        constructor
        · rintro (h1 | ⟨pre, r', hp, hl, rfl, hf'⟩)
          · exact ⟨[d], t, by simp, by simpa using hd, rfl, by rw [hf none (some d)]; exact h1⟩
          · refine ⟨d :: pre, r', by simp, ?_, rfl, hf'⟩
            intro c hc
            rcases List.mem_cons.1 hc with rfl | hc
            · exact hd
            · exact hl c hc
        · rintro ⟨pre, r', hp, hl, he, hf'⟩
          cases pre with
          | nil => exact absurd rfl hp
          | cons x pre' =>
            simp only [List.cons_append, List.cons.injEq] at he
            obtain ⟨rfl, rfl⟩ := he
            by_cases hp' : pre' = []
            · subst hp'; left; rw [hf (some d) none]; simpa using hf'
            · right
              exact ⟨pre', r', hp', fun c hc => hl c (List.mem_cons_of_mem _ hc), rfl, hf'⟩
      · have hd' : ¬ ('a'.toNat ≤ d.toNat ∧ d.toNat ≤ 'z'.toNat) := by
          simpa [isLower] using hd
        simp only [stepPlus, stepAtom, hd', if_false, List.any_nil, Bool.false_eq_true,
          false_iff]
        rintro ⟨pre, r', hp, hl, he, -⟩
        cases pre with
        | nil => exact hp rfl
        | cons x pre' =>
          simp only [List.cons_append, List.cons.injEq] at he
          obtain ⟨rfl, -⟩ := he
          exact hd (hl d (List.mem_cons_self _ _))

theorem linesLF_nil : linesLF [] = [[]] := rfl

theorem linesLF_lf (t : List Char) : linesLF ('\n' :: t) = [] :: linesLF t := by
  simp [linesLF, List.splitOn]

theorem linesLF_cons (c : Char) (t : List Char) (h : c ≠ '\n') :
    linesLF (c :: t) = (c :: (linesLF t).headD []) :: (linesLF t).tail := by
  have hne : List.splitOnP (fun x => x == '\n') t ≠ [] := List.splitOnP_ne_nil _ _
  simp only [linesLF, List.splitOn, List.splitOnP_cons, beq_iff_eq, h, if_false]
  cases hs : List.splitOnP (fun x => x == '\n') t with
  | nil => exact absurd hs hne
  | cons a as => simp [List.modifyHead]

theorem linesLF_eq (s : List Char) : linesLF s = (linesLF s).headD [] :: (linesLF s).tail := by
  have hne : linesLF s ≠ [] := List.splitOnP_ne_nil _ _
  cases hs : linesLF s with
  | nil => exact absurd hs hne
  | cons a as => rfl

theorem head_linesLF (s : List Char) : ∀ l : List Char, '\n' ∉ l →
    ((linesLF s).headD [] = l ↔ ∃ suf, s = l ++ suf ∧ (suf = [] ∨ ∃ t, suf = '\n' :: t)) := by
  induction s with
  | nil =>
    intro l _
    simp only [linesLF_nil, List.headD_cons]
    constructor
    · rintro rfl; exact ⟨[], rfl, Or.inl rfl⟩
    · rintro ⟨suf, h, -⟩
      cases l with
      | nil => rfl
      | cons x l' => simp at h
  | cons c t ih =>
    intro l hl
    by_cases hc : c = '\n'
    · subst hc
      simp only [linesLF_lf, List.headD_cons]
      constructor
      · rintro rfl; exact ⟨'\n' :: t, rfl, Or.inr ⟨t, rfl⟩⟩
      · rintro ⟨suf, h, -⟩
        cases l with
        | nil => rfl
        | cons x l' =>
          simp only [List.cons_append, List.cons.injEq] at h
          exact absurd (h.1 ▸ List.mem_cons_self _ _) hl
    · simp only [linesLF_cons c t hc, List.headD_cons]
      cases l with
      | nil =>
        constructor
        · intro h; simp at h
        · rintro ⟨suf, h, hs⟩
          simp only [List.nil_append] at h
          rcases hs with rfl | ⟨t', rfl⟩
          · simp at h
          · simp only [List.cons.injEq] at h
            exact absurd h.1 hc
      | cons x l' =>
        have hl' : '\n' ∉ l' := fun h => hl (List.mem_cons_of_mem _ h)
        simp only [List.cons.injEq, List.cons_append, ih l' hl']
        constructor
        · rintro ⟨rfl, suf, h1, h2⟩; exact ⟨suf, ⟨rfl, h1⟩, h2⟩
        · rintro ⟨suf, ⟨rfl, h1⟩, h2⟩; exact ⟨rfl, suf, h1, h2⟩

theorem isLower_ne_lf {c : Char} (h : isLower c = true) : c ≠ '\n' := by
  rintro rfl
  exact absurd h (by decide)

theorem hostName_no_lf {l : List Char} (h : HostName l) : '\n' ∉ l := by
  obtain ⟨pre, -, hl, rfl⟩ := h
  intro hmem
  rcases List.mem_append.1 hmem with h1 | h1
  · exact isLower_ne_lf (hl _ h1) rfl
  · revert h1; decide

theorem runInsts_plus (a : Atom) (is : List Inst) (p : Pos) :
    runInsts (.plus a :: is) p = (stepPlus a (p.rest.length + 1) p).any (runInsts is) := rfl

theorem runInsts_beginLine (is : List Inst) (pv : Option Char) (s : List Char) :
    runInsts (.one .beginLine :: is) ⟨pv, s⟩ = (lineStart pv && runInsts is ⟨pv, s⟩) := by
  cases pv with
  | none => simp [runInsts, stepAtom, lineStart]
  | some c =>
    by_cases hc : c = '\n'
    · subst hc; simp [runInsts, stepAtom, lineStart]
    · simp [runInsts, stepAtom, lineStart, hc]

theorem runInsts_canvasProg (pv : Option Char) (s : List Char) :
    runInsts canvasProg ⟨pv, s⟩ = true ↔
      lineStart pv = true ∧ HostName ((linesLF s).headD []) := by
  have hplus := any_stepPlus_lower
    (runInsts (domainSuffix.map (fun c => Inst.one (.lit c)) ++ [.one .endLine]))
    (runInsts_lits_prev domainSuffix) (s.length + 1) pv s (Nat.lt_succ_self _)
  have hbody : runInsts (Inst.plus (.range 'a' 'z') ::
      (domainSuffix.map (fun c => Inst.one (.lit c)) ++ [.one .endLine])) ⟨pv, s⟩ = true ↔
      HostName ((linesLF s).headD []) := by
    rw [runInsts_plus, hplus]
    constructor
    · rintro ⟨pre, r', hp, hl, rfl, hr⟩
      obtain ⟨suf, rfl, hsuf⟩ := (runInsts_lits _ _ _).1 hr
      have hH : HostName (pre ++ domainSuffix) := ⟨pre, hp, hl, rfl⟩
      have := (head_linesLF (pre ++ (domainSuffix ++ suf)) (pre ++ domainSuffix)
        (hostName_no_lf hH)).2 ⟨suf, by simp, hsuf⟩
      rw [this]; exact hH
    · intro hH
      obtain ⟨suf, hs, hsuf⟩ := (head_linesLF s _ (hostName_no_lf hH)).1 rfl
      obtain ⟨pre, hp, hl, he⟩ := hH
      refine ⟨pre, domainSuffix ++ suf, hp, hl, ?_, (runInsts_lits _ _ _).2 ⟨suf, rfl, hsuf⟩⟩
      rw [hs, he, List.append_assoc]
  rw [canvasProg, runInsts_beginLine, Bool.and_eq_true, hbody]

theorem search_canvasProg (s : List Char) : ∀ pv : Option Char,
    (search canvasProg pv s = true ↔
      (lineStart pv = true ∧ HostName ((linesLF s).headD [])) ∨
        ∃ l ∈ (linesLF s).tail, HostName l) := by
  induction s with
  | nil =>
    intro pv
    simp only [search, runInsts_canvasProg, linesLF_nil, List.headD_cons, List.tail_cons,
      List.not_mem_nil, false_and, exists_false, or_false]
  | cons c t ih =>
    intro pv
    simp only [search, Bool.or_eq_true, runInsts_canvasProg, ih (some c)]
    by_cases hc : c = '\n'
    · subst hc
      have h0 : ¬ HostName [] := by decide
      simp only [linesLF_lf, List.headD_cons, List.tail_cons, h0, and_false, false_or,
        lineStart, decide_True, true_and]
      conv => rhs; rw [linesLF_eq t]
      simp only [List.mem_cons, exists_eq_or_imp]
    · simp only [linesLF_cons c t hc, List.headD_cons, List.tail_cons, lineStart, hc,
        decide_False, Bool.false_eq_true, false_and, false_or]

theorem search_iff_line (s : List Char) :
    search canvasProg none s = true ↔ ∃ l ∈ linesLF s, HostName l := by
  rw [search_canvasProg s none]
  conv => rhs; rw [linesLF_eq s]
  simp only [lineStart, true_and, List.mem_cons, exists_eq_or_imp]

/-! ## Maps -/

theorem lookupAll_Add_ne (v : Values) (k key x : String) (h : k ≠ key) :
    Values.lookupAll (Values.Add v k x) key = Values.lookupAll v key := by
  induction v with
  | nil => simp [Values.Add, Values.lookupAll, h]
  | cons e rest ih =>
    obtain ⟨k', vs⟩ := e
    by_cases hk : k' = k
    · subst hk; simp [Values.Add, Values.lookupAll, h]
    · by_cases hk' : k' = key
      · subst hk'; simp [Values.Add, Values.lookupAll, hk]
      · simp [Values.Add, Values.lookupAll, hk, hk', ih]

theorem lookupAll_query_absent (params : List (String × String)) (key : String)
    (h : ∀ kv ∈ params, kv.1 ≠ key) : ∀ v : Values,
    Values.lookupAll (params.foldl (fun v kv => Values.Add v kv.1 kv.2) v) key =
      Values.lookupAll v key := by
  induction params with
  | nil => intro v; rfl
  | cons kv rest ih =>
    intro v
    rw [List.foldl_cons, ih (fun kv' h' => h kv' (List.mem_cons_of_mem _ h')),
      lookupAll_Add_ne _ _ _ _ (h kv (List.mem_cons_self _ _))]

theorem get_absent (req : Request) (key : String) (h : ∀ kv ∈ req.params, kv.1 ≠ key) :
    req.Query.Get key = "" := by
  simp [Values.Get, Request.Query, lookupAll_query_absent req.params key h, Values.lookupAll]

/-! ## The shape of a run of the handler -/

theorem handler_sent (client : Upstream) (req : Request) :
    (reqHandler client req).sent = outbound req := by
  unfold outbound reqHandler
  by_cases h1 : req.Query.Get "canvas_domain" = ""
  · simp [h1]
  · cases h2 : MatchString CANVAS_DOMAIN_PATTERN (req.Query.Get "canvas_domain") with
    | error e => simp [h1, h2]
    | ok m =>
      cases m with
      | false => simp [h1, h2]
      | true =>
        by_cases h3 : req.Query.Get "access_token" = ""
        · simp [h1, h2, h3]
        · cases h4 : NewRequest "GET"
              ("https://" ++ req.Query.Get "canvas_domain" ++ "/api/v1" ++ req.Path) with
          | error e => simp [h1, h2, h3, h4]
          | ok r0 =>
            simp only [h1, h2, h3, h4, if_false]
            split
            · rfl
            · split
              · rfl
              · unfold relayResponse
                split <;> rfl

theorem handler_of_outbound (client : Upstream) (req : Request) (r : OutRequest)
    (h : outbound req = some r) :
    reqHandler client req = afterSend r (client r) := by
  unfold outbound reqHandler at h
  unfold reqHandler
  by_cases h1 : req.Query.Get "canvas_domain" = ""
  · simp [h1] at h
  · cases h2 : MatchString CANVAS_DOMAIN_PATTERN (req.Query.Get "canvas_domain") with
    | error e => simp [h1, h2] at h
    | ok m =>
      cases m with
      | false => simp [h1, h2] at h
      | true =>
        by_cases h3 : req.Query.Get "access_token" = ""
        · simp [h1, h2, h3] at h
        · cases h4 : NewRequest "GET"
              ("https://" ++ req.Query.Get "canvas_domain" ++ "/api/v1" ++ req.Path) with
          | error e => simp [h1, h2, h3, h4] at h
          | ok r0 =>
            simp only [h1, h2, h3, h4, if_false, Option.some.injEq] at h ⊢
            subst h
            unfold afterSend
            split
            · rfl
            · split <;> rfl

theorem handler_of_no_outbound (client : Upstream) (req : Request)
    (h : outbound req = none) :
    (reqHandler client req).response.Header = [] ∧
      ((reqHandler client req).response.Status = 400 ∨
        (reqHandler client req).response.Status = 500) := by
  unfold outbound reqHandler at h
  unfold reqHandler
  by_cases h1 : req.Query.Get "canvas_domain" = ""
  · simp [h1, errorResponse]
  · cases h2 : MatchString CANVAS_DOMAIN_PATTERN (req.Query.Get "canvas_domain") with
    | error e => simp [h1, h2, errorResponse]
    | ok m =>
      cases m with
      | false => simp [h1, h2, errorResponse]
      | true =>
        by_cases h3 : req.Query.Get "access_token" = ""
        · simp [h1, h2, h3, errorResponse]
        · cases h4 : NewRequest "GET"
              ("https://" ++ req.Query.Get "canvas_domain" ++ "/api/v1" ++ req.Path) with
          | error e => simp [h1, h2, h3, h4, errorResponse]
          | ok r0 => simp [h1, h2, h3, h4] at h

/-! ## Parsing the URL of a validated request -/

theorem cutAt_not_mem (sep : Char) (l : List Char) (h : sep ∉ l) :
    cutAt sep l = (l, [], false) := by
  induction l with
  | nil => rfl
  | cons c t ih =>
    have hc : c ≠ sep := fun e => h (e ▸ List.mem_cons_self _ _)
    have ht : sep ∉ t := fun e => h (List.mem_cons_of_mem _ e)
    simp [cutAt, hc, ih ht]

theorem cutAt_append (sep : Char) (l r : List Char) (h : sep ∉ l) :
    cutAt sep (l ++ sep :: r) = (l, r, true) := by
  induction l with
  | nil => simp [cutAt]
  | cons c t ih =>
    have hc : c ≠ sep := fun e => h (e ▸ List.mem_cons_self _ _)
    have ht : sep ∉ t := fun e => h (List.mem_cons_of_mem _ e)
    simp [cutAt, hc, ih ht]

theorem cutLast_not_mem (sep : Char) (l : List Char) (h : sep ∉ l) :
    cutLast sep l = none := by
  induction l with
  | nil => rfl
  | cons c t ih =>
    have hc : c ≠ sep := fun e => h (e ▸ List.mem_cons_self _ _)
    have ht : sep ∉ t := fun e => h (List.mem_cons_of_mem _ e)
    simp [cutLast, hc, ih ht]

theorem escapesOK_of_not_mem (l : List Char) (h : '%' ∉ l) : escapesOK l = true := by
  induction l with
  | nil => rfl
  | cons c t ih =>
    have hc : c ≠ '%' := fun e => h (e ▸ List.mem_cons_self _ _)
    have ht : '%' ∉ t := fun e => h (List.mem_cons_of_mem _ e)
    rw [escapesOK]
    · exact ih ht
    · intro a b t' e _; exact hc e
    · intro e; exact hc e

theorem unescapeText_of_not_mem (l : List Char) (h : '%' ∉ l) : unescapeText l = l := by
  simp [unescapeText, h]

theorem hostEscapesOK_of (l : List Char) (h : ∀ c ∈ l, c ≠ '%' ∧ hostCharOK c = true) :
    hostEscapesOK l = true := by
  induction l with
  | nil => rfl
  | cons c t ih =>
    have hc := h c (List.mem_cons_self _ _)
    have ht : ∀ c ∈ t, c ≠ '%' ∧ hostCharOK c = true := fun c hc => h c (List.mem_cons_of_mem _ hc)
    rw [hostEscapesOK]
    · simp [hc.2, ih ht]
    · intro a b t' e _; exact hc.1 e
    · intro e; exact hc.1 e

/-- The characters of a host name are harmless for the URL parser. -/
theorem hostName_chars {l : List Char} (h : HostName l) : ∀ c ∈ l,
    isCTL c = false ∧ c ≠ '#' ∧ c ≠ '?' ∧ c ≠ '/' ∧ c ≠ '@' ∧ c ≠ ':' ∧ c ≠ '%' ∧
      hostCharOK c = true := by
  obtain ⟨pre, -, hl, rfl⟩ := h
  intro c hc
  rcases List.mem_append.1 hc with h1 | h1
  · have hlow := hl c h1
    simp only [isLower, Bool.and_eq_true, decide_eq_true_eq] at hlow
    have hne : ∀ x : Char, (x.toNat < 97 ∨ 122 < x.toNat) → c ≠ x := by
      intro x hx e; subst e; omega
    refine ⟨?_, hne _ (by decide), hne _ (by decide), hne _ (by decide), hne _ (by decide),
      hne _ (by decide), hne _ (by decide), ?_⟩
    · simp only [isCTL, Bool.or_eq_false_iff, decide_eq_false_iff_not]; omega
    · simp only [hostCharOK, isAlnumByte, Bool.or_eq_true, Bool.and_eq_true, decide_eq_true_eq]
      left; right; right; omega
  · have hall : ∀ c ∈ domainSuffix, isCTL c = false ∧ c ≠ '#' ∧ c ≠ '?' ∧ c ≠ '/' ∧ c ≠ '@' ∧
        c ≠ ':' ∧ c ≠ '%' ∧ hostCharOK c = true := by decide
    exact hall c h1

theorem parseHost_hostName {d : List Char} (h : HostName d) : parseHost d = .ok d := by
  have hch := hostName_chars h
  have hcolon : cutLast ':' d = none :=
    cutLast_not_mem _ _ (fun hm => (hch _ hm).2.2.2.2.2.1 rfl)
  have hesc : hostEscapesOK d = true :=
    hostEscapesOK_of d (fun c hc => ⟨(hch c hc).2.2.2.2.2.2.1, (hch c hc).2.2.2.2.2.2.2⟩)
  obtain ⟨pre, hp, hl, rfl⟩ := h
  cases pre with
  | nil => exact absurd rfl hp
  | cons x pre' =>
    have hx : x ≠ '[' := by
      intro e
      have := hl x (List.mem_cons_self _ _)
      rw [e] at this
      exact absurd this (by decide)
    unfold parseHost
    split
    · rename_i heq
      simp only [List.cons_append, List.cons.injEq] at heq
      exact absurd heq.1 hx
    · have hun : unescapeText (x :: pre' ++ domainSuffix) = x :: pre' ++ domainSuffix :=
        unescapeText_of_not_mem _ (fun hm => (hch _ hm).2.2.2.2.2.2.1 rfl)
      rw [List.cons_append] at hcolon hesc hun
      simp [hcolon, hesc, hun]

theorem parseAuthority_hostName {d : List Char} (h : HostName d) :
    parseAuthority d = .ok (none, d) := by
  have hat : cutLast '@' d = none :=
    cutLast_not_mem _ _ (fun hm => (hostName_chars h _ hm).2.2.2.2.1 rfl)
  simp [parseAuthority, hat, parseHost_hostName h, Except.map]

theorem parseNoFragment_plain (d p : List Char) (hd : HostName d) (hp : PlainPath p) :
    parseNoFragment ('h' :: 't' :: 't' :: 'p' :: 's' :: ':' :: '/' :: '/' ::
        (d ++ '/' :: 'a' :: 'p' :: 'i' :: '/' :: 'v' :: '1' :: p)) =
      .ok ⟨"https", "", none, String.mk d,
        String.mk ('/' :: 'a' :: 'p' :: 'i' :: '/' :: 'v' :: '1' :: p), false, "", ""⟩ := by
  have hch := hostName_chars hd
  have hall : ∀ c ∈ d ++ '/' :: 'a' :: 'p' :: 'i' :: '/' :: 'v' :: '1' :: p,
      isCTL c = false ∧ c ≠ '?' := by
    intro c hc
    rcases List.mem_append.1 hc with h1 | h1
    · exact ⟨(hch c h1).1, (hch c h1).2.2.1⟩
    · have hlit : ∀ c ∈ ['/', 'a', 'p', 'i', '/', 'v', '1'], isCTL c = false ∧ c ≠ '?' := by
        decide
      have h2 : c ∈ ['/', 'a', 'p', 'i', '/', 'v', '1'] ++ p := by simpa using h1
      rcases List.mem_append.1 h2 with h3 | h3
      · exact hlit c h3
      · exact ⟨(hp c h3).1, (hp c h3).2.2.1⟩
  have hctl : (d ++ '/' :: 'a' :: 'p' :: 'i' :: '/' :: 'v' :: '1' :: p).any isCTL = false := by
    rw [List.any_eq_false]
    intro c hc
    simp [(hall c hc).1]
  have hq : '?' ∉ '/' :: '/' :: (d ++ '/' :: 'a' :: 'p' :: 'i' :: '/' :: 'v' :: '1' :: p) := by
    intro hm
    rcases List.mem_cons.1 hm with h1 | h1
    · exact absurd h1 (by decide)
    · rcases List.mem_cons.1 h1 with h2 | h2
      · exact absurd h2 (by decide)
      · exact (hall _ h2).2 rfl
  have hlast : ('/' :: '/' :: (d ++ '/' :: 'a' :: 'p' :: 'i' :: '/' :: 'v' :: '1' :: p)).getLast?
      ≠ some '?' := fun e => hq (List.mem_of_getLast?_eq_some e)
  have hcut := cutAt_not_mem '?' _ hq
  have hslash : '/' ∉ d := fun hm => (hch _ hm).2.2.2.1 rfl
  have hauth := cutAt_append '/' d ('a' :: 'p' :: 'i' :: '/' :: 'v' :: '1' :: p) hslash
  have hpct : '%' ∉ '/' :: 'a' :: 'p' :: 'i' :: '/' :: 'v' :: '1' :: p := by
    intro hm
    have h2 : '%' ∈ ['/', 'a', 'p', 'i', '/', 'v', '1'] ++ p := by simpa using hm
    rcases List.mem_append.1 h2 with h3 | h3
    · exact absurd h3 (by decide)
    · exact (hp _ h3).2.2.2 rfl
  have hesc := escapesOK_of_not_mem _ hpct
  have hscheme : getSchemeFrom
      ('h' :: 't' :: 't' :: 'p' :: 's' :: ':' :: '/' :: '/' ::
        (d ++ '/' :: 'a' :: 'p' :: 'i' :: '/' :: 'v' :: '1' :: p)) []
      ('h' :: 't' :: 't' :: 'p' :: 's' :: ':' :: '/' :: '/' ::
        (d ++ '/' :: 'a' :: 'p' :: 'i' :: '/' :: 'v' :: '1' :: p)) =
      .ok (['h', 't', 't', 'p', 's'],
        '/' :: '/' :: (d ++ '/' :: 'a' :: 'p' :: 'i' :: '/' :: 'v' :: '1' :: p)) := rfl
  have hsch2 : (['h', 't', 't', 'p', 's'] : List Char).map lowerASCII =
      ['h', 't', 't', 'p', 's'] := by decide
  have hany : ('h' :: 't' :: 't' :: 'p' :: 's' :: ':' :: '/' :: '/' ::
        (d ++ '/' :: 'a' :: 'p' :: 'i' :: '/' :: 'v' :: '1' :: p)).any isCTL = false := by
    simp only [List.any_cons, hctl, Bool.or_false]
    decide
  have hun := unescapeText_of_not_mem _ hpct
  unfold parseNoFragment
  rw [if_neg (by simp [hany]), if_neg (by simp)]
  simp only [hscheme, hsch2, hlast, hcut, hauth, hesc, hun, parseAuthority_hostName hd,
    List.drop_left, decide_False, Bool.false_and, if_false, List.head?_cons,
    ne_eq, not_true_eq_false, reduceCtorEq, not_false_eq_true, decide_True, Bool.true_or,
    if_true, Option.map_none', Bool.and_true, Bool.and_false]

theorem linesLF_single (l : List Char) (h : '\n' ∉ l) : linesLF l = [l] := by
  unfold linesLF List.splitOn
  apply List.splitOnP_eq_single
  intro x hx hp
  simp only [beq_iff_eq] at hp
  exact h (hp ▸ hx)

theorem matchString_iff_line (d : String) :
    MatchString CANVAS_DOMAIN_PATTERN d = .ok true ↔ ∃ l ∈ linesLF d.toList, HostName l := by
  rw [matchString_pattern, ← search_iff_line]
  simp

theorem matchString_false_of_no_line (d : String)
    (h : ¬ ∃ l ∈ linesLF d.toList, HostName l) :
    MatchString CANVAS_DOMAIN_PATTERN d = .ok false := by
  rw [matchString_pattern]
  rw [← search_iff_line] at h
  simp only [Bool.not_eq_true] at h
  rw [h]

theorem handler_bad_format (client : Upstream) (req : Request)
    (h1 : req.Query.Get "canvas_domain" ≠ "")
    (h2 : MatchString CANVAS_DOMAIN_PATTERN (req.Query.Get "canvas_domain") = .ok false) :
    reqHandler client req = ⟨none, errorResponse 400 "canvas_domain has bad format", false⟩ := by
  simp [reqHandler, h1, h2]

theorem string_ne_empty_of_hostName {d : String} (h : HostName d.toList) : d ≠ "" := by
  rintro rfl
  exact absurd h (by decide)

theorem urlParse_plain (d p : String) (hd : HostName d.toList) (hp : PlainPath p.toList) :
    urlParse ("https://" ++ d ++ "/api/v1" ++ p) =
      .ok ⟨"https", "", none, d, "/api/v1" ++ p, false, "", ""⟩ := by
  have hch := hostName_chars hd
  have hraw : ("https://" ++ d ++ "/api/v1" ++ p).toList =
      'h' :: 't' :: 't' :: 'p' :: 's' :: ':' :: '/' :: '/' ::
        (d.toList ++ '/' :: 'a' :: 'p' :: 'i' :: '/' :: 'v' :: '1' :: p.toList) := by
    simp [String.toList]
  have hhash : '#' ∉ ("https://" ++ d ++ "/api/v1" ++ p).toList := by
    rw [hraw]
    intro hm
    have h2 : '#' ∈ ['h', 't', 't', 'p', 's', ':', '/', '/'] ++ (d.toList ++
        (['/', 'a', 'p', 'i', '/', 'v', '1'] ++ p.toList)) := by simpa using hm
    rcases List.mem_append.1 h2 with h3 | h3
    · exact absurd h3 (by decide)
    · rcases List.mem_append.1 h3 with h4 | h4
      · exact (hch _ h4).2.1 rfl
      · rcases List.mem_append.1 h4 with h5 | h5
        · exact absurd h5 (by decide)
        · exact (hp _ h5).2.1 rfl
  unfold urlParse
  rw [cutAt_not_mem '#' _ hhash, hraw, parseNoFragment_plain _ _ hd hp]
  simp only [escapesOK, if_true]
  rfl

theorem newRequest_plain (d p : String) (hd : HostName d.toList) (hp : PlainPath p.toList) :
    NewRequest "GET" ("https://" ++ d ++ "/api/v1" ++ p) =
      .ok ⟨"GET", ⟨"https", "", none, d, "/api/v1" ++ p, false, "", ""⟩, []⟩ := by
  have hlast : d.toList.getLast? ≠ some ':' := fun e =>
    (hostName_chars hd _ (List.mem_of_getLast?_eq_some e)).2.2.2.2.2.1 rfl
  have hport : removeEmptyPort d = d := by
    unfold removeEmptyPort
    rw [if_neg hlast]
  simp only [NewRequest, urlParse_plain d p hd hp, hport]

theorem relay_header (s : Nat) (h : Values) :
    Values.lookupAll (relayHeader s h) "Access-Control-Allow-Origin" = ["app://obsidian.md"] ∧
    Values.lookupAll (relayHeader s h) "Access-Control-Expose-Headers" = ["Link"] ∧
    (h.Get "Link" ≠ "" → Values.lookupAll (relayHeader s h) "Link" = [h.Get "Link"]) ∧
    (h.Get "Link" = "" → Values.Has (relayHeader s h) "Link" = false) ∧
    (s = 200 → Values.lookupAll (relayHeader s h) "Content-Type" = ["application/json"]) ∧
    (s ≠ 200 → Values.Has (relayHeader s h) "Content-Type" = false) := by
  by_cases hl : h.Get "Link" = "" <;> by_cases hs : s = 200 <;>
    simp [relayHeader, hl, hs, Values.Set, Values.lookupAll, Values.Has]

theorem relayResponse_header (r : OutRequest) (s : Nat) (h : Values) (b : String) :
    (relayResponse r s h b).response.Header = relayHeader s h := by
  unfold relayResponse
  split <;> rfl

theorem relayResponse_valid (r : OutRequest) (s : Nat) (h : Values) (b : String)
    (hs : validStatus s = true) :
    relayResponse r s h b = ⟨some r, ⟨relayHeader s h, s, b⟩, false⟩ := by
  simp [relayResponse, hs]

/-! ## The properties C1 to C10 of the specification -/

theorem lookupAll_of_not_has (v : Values) (key : String) (h : Values.Has v key = false) :
    Values.lookupAll v key = [] := by
  induction v with
  | nil => rfl
  | cons e rest ih =>
    obtain ⟨k, vs⟩ := e
    by_cases hk : k = key
    · simp [Values.Has, hk] at h
    · simp only [Values.Has, hk, if_false] at h
      simp [Values.lookupAll, hk, ih h]

/-- C1 (code evaluated at a failing input): for the request
`/courses?canvas_domain=school.instructure.com&access_token=abc` the query map
built by lines 65-70 of main.go still has the keys `canvas_domain` and
`access_token`, and the query string of the outbound request is
`access_token=abc&canvas_domain=school.instructure.com`, whatever the upstream
answers. -/
theorem C1_reserved_keys_are_forwarded :
    Values.Has (canvasQuery reqCourses) "canvas_domain" = true ∧
    Values.Has (canvasQuery reqCourses) "access_token" = true ∧
    ∀ client : Upstream, ((reqHandler client reqCourses).sent.map fun r => r.URL.RawQuery) =
      some "access_token=abc&canvas_domain=school.instructure.com" := by
  refine ⟨by decide, by decide, fun client => ?_⟩
  rw [handler_sent]
  decide

/-- C2 (code evaluated at a failing input): the value
`evil.com/#\nschool.instructure.com` is non-empty and is not as a whole of the
form `[a-z]+.instructure.com`, yet the host check accepts it, because its
second line is of that form; `url.Parse` cuts the URL string at `#`, so a `GET`
with `Authorization: Bearer abc` is handed to the client for the host
`evil.com`, and the answer of that host is relayed instead of a 400. -/
theorem C2_host_check_bypass :
    (reqWithDomain "evil.com/#\nschool.instructure.com").Query.Get "canvas_domain" =
      "evil.com/#\nschool.instructure.com" ∧
    "evil.com/#\nschool.instructure.com" ≠ "" ∧
    ¬ HostName "evil.com/#\nschool.instructure.com".toList ∧
    MatchString CANVAS_DOMAIN_PATTERN "evil.com/#\nschool.instructure.com" = .ok true ∧
    (∀ client : Upstream,
      (reqHandler client (reqWithDomain "evil.com/#\nschool.instructure.com")).sent =
        some sentBypass) ∧
    sentBypass.URL.Host = "evil.com" ∧
    sentBypass.Header = [("Authorization", ["Bearer abc"])] ∧
    (reqHandler upstreamOK (reqWithDomain "evil.com/#\nschool.instructure.com")).response.Status =
      200 := by
  refine ⟨by decide, by decide, by decide, rfl, fun client => ?_, rfl, rfl, by decide⟩
  rw [handler_sent]
  decide

/-- C3: a request without a `canvas_domain` query parameter gets status 400
and the body `missing canvas_domain query parameter`, and nothing is handed to
the client, whatever else the request carries. -/
theorem C3_missing_canvas_domain (client : Upstream) (req : Request)
    (h : ∀ kv ∈ req.params, kv.1 ≠ "canvas_domain") :
    (reqHandler client req).sent = none ∧
    (reqHandler client req).response.Status = 400 ∧
    (reqHandler client req).response.Body = "missing canvas_domain query parameter" := by
  have hget := get_absent req "canvas_domain" h
  simp [reqHandler, hget, errorResponse]

/-- C3 (witness): a request that carries only `access_token`. -/
theorem C3_witness :
    (∀ kv ∈ reqNoDomain.params, kv.1 ≠ "canvas_domain") ∧
    (reqHandler upstreamOK reqNoDomain).sent = none ∧
    (reqHandler upstreamOK reqNoDomain).response.Status = 400 ∧
    (reqHandler upstreamOK reqNoDomain).response.Body =
      "missing canvas_domain query parameter" :=
  ⟨by decide, C3_missing_canvas_domain upstreamOK reqNoDomain (by decide)⟩

/-- C4: a request whose `canvas_domain` is accepted by the host check (it is
non-empty and `MatchString` reports a match) and that has no `access_token`
query parameter gets status 400 and the body
`missing access_token query parameter`, and nothing is handed to the client. -/
theorem C4_missing_access_token (client : Upstream) (req : Request)
    (hne : req.Query.Get "canvas_domain" ≠ "")
    (hm : MatchString CANVAS_DOMAIN_PATTERN (req.Query.Get "canvas_domain") = .ok true)
    (h : ∀ kv ∈ req.params, kv.1 ≠ "access_token") :
    (reqHandler client req).sent = none ∧
    (reqHandler client req).response.Status = 400 ∧
    (reqHandler client req).response.Body = "missing access_token query parameter" := by
  have hget := get_absent req "access_token" h
  simp [reqHandler, hne, hm, hget, errorResponse]

/-- C4 (witness): a request that carries only a valid `canvas_domain`. -/
theorem C4_witness :
    reqNoToken.Query.Get "canvas_domain" ≠ "" ∧
    MatchString CANVAS_DOMAIN_PATTERN (reqNoToken.Query.Get "canvas_domain") = .ok true ∧
    (∀ kv ∈ reqNoToken.params, kv.1 ≠ "access_token") ∧
    (reqHandler upstreamOK reqNoToken).sent = none ∧
    (reqHandler upstreamOK reqNoToken).response.Status = 400 ∧
    (reqHandler upstreamOK reqNoToken).response.Body =
      "missing access_token query parameter" :=
  ⟨by decide, rfl, by decide,
    C4_missing_access_token upstreamOK reqNoToken (by decide) rfl (by decide)⟩

/-- C5 (counterexample): four requests with `canvas_domain` equal to
`school.instructure.com` and `access_token=abc` pass validation. For the path
`/a\nb` no outbound request exists: `http.NewRequest` rejects the control
character and the handler takes its error exit with a 500. For the paths
`/a?b` and `/a#b` the path of the outbound request is `/api/v1/a`, and for the
path `/a%41` it is `/api/v1/aA`. -/
theorem C5_counterexample_path :
    ((reqWithPath "/a\nb").Query.Get "canvas_domain" ≠ "" ∧
      MatchString CANVAS_DOMAIN_PATTERN ((reqWithPath "/a\nb").Query.Get "canvas_domain") =
        .ok true ∧
      (reqWithPath "/a\nb").Query.Get "access_token" ≠ "") ∧
    ((reqHandler upstreamOK (reqWithPath "/a\nb")).sent = none ∧
      (reqHandler upstreamOK (reqWithPath "/a\nb")).response.Status = 500) ∧
    ((reqHandler upstreamOK (reqWithPath "/a?b")).sent.map fun r => r.URL.Path) =
      some "/api/v1/a" ∧
    ((reqHandler upstreamOK (reqWithPath "/a#b")).sent.map fun r => r.URL.Path) =
      some "/api/v1/a" ∧
    ((reqHandler upstreamOK (reqWithPath "/a%41")).sent.map fun r => r.URL.Path) =
      some "/api/v1/aA" := by
  refine ⟨⟨by decide, rfl, by decide⟩, ⟨by decide, by decide⟩, by decide, by decide, by decide⟩

/-- C5 (amended): for every inbound request that passes validation with a
`canvas_domain` d free of line feeds, an `access_token` t and a path p that has
no ASCII control character and none of `#`, `?`, `%`, and for every inbound
method, the outbound request has method GET, scheme `https`, host d, path
`/api/v1` followed by p, no user information and no fragment, and its only
header is `Authorization` with the single value `Bearer ` followed by t. -/
theorem C5_outbound_request (client : Upstream) (req : Request)
    (hne : req.Query.Get "canvas_domain" ≠ "")
    (hm : MatchString CANVAS_DOMAIN_PATTERN (req.Query.Get "canvas_domain") = .ok true)
    (hlf : '\n' ∉ (req.Query.Get "canvas_domain").toList)
    (ht : req.Query.Get "access_token" ≠ "")
    (hp : PlainPath req.Path.toList) :
    ∃ r, (reqHandler client req).sent = some r ∧
      r.Method = "GET" ∧
      r.URL.Scheme = "https" ∧
      r.URL.Host = req.Query.Get "canvas_domain" ∧
      r.URL.Path = "/api/v1" ++ req.Path ∧
      r.URL.Opaque = "" ∧ r.URL.User = none ∧ r.URL.Fragment = "" ∧
      r.Header = [("Authorization", ["Bearer " ++ req.Query.Get "access_token"])] := by
  have hhost : HostName (req.Query.Get "canvas_domain").toList := by
    obtain ⟨l, hl, hh⟩ := (matchString_iff_line _).1 hm
    rw [linesLF_single _ hlf, List.mem_singleton] at hl
    exact hl ▸ hh
  have hnew := newRequest_plain (req.Query.Get "canvas_domain") req.Path hhost hp
  have hout : outbound req = some
      ⟨"GET", ⟨"https", "", none, req.Query.Get "canvas_domain", "/api/v1" ++ req.Path, false,
        (canvasQuery req).Encode, ""⟩,
        [("Authorization", ["Bearer " ++ req.Query.Get "access_token"])]⟩ := by
    simp [outbound, reqHandler, hne, hm, ht, hnew, Values.Add]
  exact ⟨_, (handler_sent client req).trans hout, rfl, rfl, rfl, rfl, rfl, rfl, rfl, rfl⟩

/-- C5 (witness): a `POST` for `/courses` with `school.instructure.com` and the
token `abc` leads to a `GET` of `https://school.instructure.com/api/v1/courses`
with `Authorization: Bearer abc`. -/
theorem C5_witness_post :
    ∃ r, (reqHandler upstreamOK reqPost).sent = some r ∧
      r.Method = "GET" ∧
      r.URL.Scheme = "https" ∧
      r.URL.Host = reqPost.Query.Get "canvas_domain" ∧
      r.URL.Path = "/api/v1" ++ reqPost.Path ∧
      r.URL.Opaque = "" ∧ r.URL.User = none ∧ r.URL.Fragment = "" ∧
      r.Header = [("Authorization", ["Bearer " ++ reqPost.Query.Get "access_token"])] :=
  C5_outbound_request upstreamOK reqPost (by decide) rfl (by decide) (by decide) (by decide)

/-- C6 (code evaluated at a failing input): for the request
`/courses?canvas_domain=school.instructure.com&access_token=abc&per_page=50`
the inbound query has the one value `50` for `per_page`, the query map built by
lines 65-70 of main.go has the two values `50`, `50`, and the query string of
the outbound request carries `per_page=50` twice. -/
theorem C6_per_page_is_sent_twice :
    Values.lookupAll reqPerPage.Query "per_page" = ["50"] ∧
    Values.lookupAll (canvasQuery reqPerPage) "per_page" = ["50", "50"] ∧
    ∀ client : Upstream, ((reqHandler client reqPerPage).sent.map fun r => r.URL.RawQuery) =
      some "access_token=abc&canvas_domain=school.instructure.com&per_page=50&per_page=50" := by
  refine ⟨by decide, by decide, fun client => ?_⟩
  rw [handler_sent]
  decide

/-- C7 (counterexample): the 400 response to a request without `canvas_domain`
has no header at all, so neither of the two CORS headers. -/
theorem C7_counterexample_error_response :
    (reqHandler upstreamOK reqNoDomain).response.Status = 400 ∧
    (reqHandler upstreamOK reqNoDomain).response.Header = [] ∧
    Values.Has (reqHandler upstreamOK reqNoDomain).response.Header
      "Access-Control-Allow-Origin" = false ∧
    Values.Has (reqHandler upstreamOK reqNoDomain).response.Header
      "Access-Control-Expose-Headers" = false := by
  refine ⟨by decide, by decide, by decide, by decide⟩

/-- C7 (amended): when the handler relays an upstream response, the response
carries `Access-Control-Allow-Origin: app://obsidian.md` and
`Access-Control-Expose-Headers: Link`; on every other exit path, the 400 and
500 error responses of the handler, the response carries no header. -/
theorem C7_cors_headers (client : Upstream) (req : Request) :
    (Relayed client req →
      Values.lookupAll (reqHandler client req).response.Header "Access-Control-Allow-Origin" =
        ["app://obsidian.md"] ∧
      Values.lookupAll (reqHandler client req).response.Header "Access-Control-Expose-Headers" =
        ["Link"]) ∧
    (¬ Relayed client req →
      (reqHandler client req).response.Header = [] ∧
      ((reqHandler client req).response.Status = 400 ∨
        (reqHandler client req).response.Status = 500)) := by
  constructor
  · rintro ⟨r, resp, body, hs, hc, hb⟩
    rw [handler_sent] at hs
    rw [handler_of_outbound client req r hs]
    simp only [afterSend, hc, hb, relayResponse_header]
    exact ⟨(relay_header _ _).1, (relay_header _ _).2.1⟩
  · intro hnot
    cases hout : outbound req with
    | none => exact handler_of_no_outbound client req hout
    | some r =>
      rw [handler_of_outbound client req r hout]
      cases hc : client r with
      | error e => simp [afterSend, errorResponse]
      | ok resp =>
        cases hb : resp.Body with
        | error e => simp [afterSend, hb, errorResponse]
        | ok body =>
          exact absurd ⟨r, resp, body, (handler_sent client req).trans hout, hc, hb⟩ hnot

/-- C7 (witness): the relayed response to `reqCourses` carries both headers,
and the error response to a request without `canvas_domain` carries none. -/
theorem C7_witness :
    (Relayed upstreamLink reqCourses ∧
      Values.lookupAll (reqHandler upstreamLink reqCourses).response.Header
        "Access-Control-Allow-Origin" = ["app://obsidian.md"] ∧
      Values.lookupAll (reqHandler upstreamLink reqCourses).response.Header
        "Access-Control-Expose-Headers" = ["Link"]) ∧
    (¬ Relayed upstreamLink reqNoDomain ∧
      (reqHandler upstreamLink reqNoDomain).response.Header = [] ∧
      ((reqHandler upstreamLink reqNoDomain).response.Status = 400 ∨
        (reqHandler upstreamLink reqNoDomain).response.Status = 500)) :=
  have h1 : Relayed upstreamLink reqCourses :=
    ⟨sentCourses, respLink, "[1]", by decide, rfl, rfl⟩
  have h2 : ¬ Relayed upstreamLink reqNoDomain := by
    rintro ⟨r, resp, body, hs, -, -⟩
    have hnone : (reqHandler upstreamLink reqNoDomain).sent = none := by decide
    rw [hnone] at hs
    cases hs
  ⟨⟨h1, (C7_cors_headers upstreamLink reqCourses).1 h1⟩,
    ⟨h2, (C7_cors_headers upstreamLink reqNoDomain).2 h2⟩⟩

/-- C8 (counterexample): three upstream answers to the validated request
`reqCourses`, each received and read without error. An upstream with the two
`Link` values `<https://a>; rel=next` and `<https://b>; rel=prev` is relayed
with the first one only. An upstream whose `Link` values are the empty text and
`<https://b>; rel=prev` is relayed without a `Link` header. For an upstream
with status 99 and body `[1]` the run ends in the panic of `WriteHeader` and
no body is written. -/
theorem C8_counterexample_link_and_status :
    ((reqHandler (fun _ => .ok respTwoLinks) reqCourses).sent = some sentCourses ∧
      Values.lookupAll respTwoLinks.Header "Link" =
        ["<https://a>; rel=next", "<https://b>; rel=prev"] ∧
      Values.lookupAll (reqHandler (fun _ => .ok respTwoLinks) reqCourses).response.Header
        "Link" = ["<https://a>; rel=next"]) ∧
    ((reqHandler (fun _ => .ok respEmptyFirstLink) reqCourses).sent = some sentCourses ∧
      Values.lookupAll respEmptyFirstLink.Header "Link" = ["", "<https://b>; rel=prev"] ∧
      Values.Has (reqHandler (fun _ => .ok respEmptyFirstLink) reqCourses).response.Header
        "Link" = false) ∧
    ((reqHandler (fun _ => .ok respBadStatus) reqCourses).sent = some sentCourses ∧
      respBadStatus.StatusCode = 99 ∧ respBadStatus.Body = .ok "[1]" ∧
      (reqHandler (fun _ => .ok respBadStatus) reqCourses).panicked = true ∧
      (reqHandler (fun _ => .ok respBadStatus) reqCourses).response.Body = "") := by
  refine ⟨⟨by decide, by decide, by decide⟩, ⟨by decide, by decide, by decide⟩,
    ⟨by decide, rfl, rfl, by decide, by decide⟩⟩

/-- C8 (amended): when a request was handed to the client (so the inbound
request passed validation), the client answered with a status s of three
digits, 100 to 999, headers h and a body b that was read without error, then
the run ends without a panic and the response of the handler has status s and
body b; its `Link` header is the single value that `Header.Get` reads from the
upstream, the first `Link` value, when that is non-empty, and it has no `Link`
header otherwise. -/
theorem C8_relays_status_body_link (client : Upstream) (req : Request) (r : OutRequest)
    (resp : UpstreamResponse) (b : String)
    (hs : (reqHandler client req).sent = some r)
    (hc : client r = .ok resp)
    (hb : resp.Body = .ok b)
    (hcode : 100 ≤ resp.StatusCode ∧ resp.StatusCode ≤ 999) :
    (reqHandler client req).panicked = false ∧
    (reqHandler client req).response.Status = resp.StatusCode ∧
    (reqHandler client req).response.Body = b ∧
    (resp.Header.Get "Link" ≠ "" →
      Values.lookupAll (reqHandler client req).response.Header "Link" =
        [resp.Header.Get "Link"]) ∧
    (resp.Header.Get "Link" = "" →
      Values.Has (reqHandler client req).response.Header "Link" = false) := by
  have hv : validStatus resp.StatusCode = true := by
    simp [validStatus, hcode.1, hcode.2]
  rw [handler_sent] at hs
  rw [handler_of_outbound client req r hs]
  simp only [afterSend, hc, hb, relayResponse_valid _ _ _ _ hv]
  have h := relay_header resp.StatusCode resp.Header
  exact ⟨trivial, trivial, trivial, h.2.2.1, h.2.2.2.1⟩

/-- C8 (witness): a `200` with a `Link` header and a `404` without one are both
relayed with their status, body and `Link` header. -/
theorem C8_witness :
    ((reqHandler upstreamLink reqCourses).sent = some sentCourses ∧
      upstreamLink sentCourses = .ok respLink ∧ respLink.Body = .ok "[1]" ∧
      (100 ≤ respLink.StatusCode ∧ respLink.StatusCode ≤ 999)) ∧
    ((reqHandler upstreamLink reqCourses).panicked = false ∧
      (reqHandler upstreamLink reqCourses).response.Status = respLink.StatusCode ∧
      (reqHandler upstreamLink reqCourses).response.Body = "[1]" ∧
      (respLink.Header.Get "Link" ≠ "" →
        Values.lookupAll (reqHandler upstreamLink reqCourses).response.Header "Link" =
          [respLink.Header.Get "Link"]) ∧
      (respLink.Header.Get "Link" = "" →
        Values.Has (reqHandler upstreamLink reqCourses).response.Header "Link" = false)) ∧
    ((reqHandler upstreamNotFound reqCourses).panicked = false ∧
      (reqHandler upstreamNotFound reqCourses).response.Status = respNotFound.StatusCode ∧
      (reqHandler upstreamNotFound reqCourses).response.Body = "not found" ∧
      (respNotFound.Header.Get "Link" ≠ "" →
        Values.lookupAll (reqHandler upstreamNotFound reqCourses).response.Header "Link" =
          [respNotFound.Header.Get "Link"]) ∧
      (respNotFound.Header.Get "Link" = "" →
        Values.Has (reqHandler upstreamNotFound reqCourses).response.Header "Link" = false)) :=
  ⟨⟨by decide, rfl, rfl, by decide⟩,
    C8_relays_status_body_link upstreamLink reqCourses sentCourses respLink "[1]"
      (by decide) rfl rfl (by decide),
    C8_relays_status_body_link upstreamNotFound reqCourses sentCourses respNotFound "not found"
      (by decide) rfl rfl (by decide)⟩

/-- C9: for every relayed upstream response, the response of the handler has
the header `Content-Type: application/json` if and only if the upstream status
code is 200, whatever the headers of the upstream response are; for every
other status code the response has no `Content-Type` header. -/
theorem C9_content_type_iff_200 (client : Upstream) (req : Request) (r : OutRequest)
    (resp : UpstreamResponse) (b : String)
    (hs : (reqHandler client req).sent = some r)
    (hc : client r = .ok resp)
    (hb : resp.Body = .ok b) :
    (Values.lookupAll (reqHandler client req).response.Header "Content-Type" =
        ["application/json"] ↔ resp.StatusCode = 200) ∧
    (resp.StatusCode ≠ 200 →
      Values.Has (reqHandler client req).response.Header "Content-Type" = false) := by
  rw [handler_sent] at hs
  rw [handler_of_outbound client req r hs]
  simp only [afterSend, hc, hb, relayResponse_header]
  have h := relay_header resp.StatusCode resp.Header
  refine ⟨⟨fun hct => ?_, h.2.2.2.2.1⟩, h.2.2.2.2.2⟩
  by_contra hne
  rw [lookupAll_of_not_has _ _ (h.2.2.2.2.2 hne)] at hct
  cases hct

/-- C9 (witness): an upstream `404` that has `Content-Type: text/html` is
relayed without a `Content-Type` header. -/
theorem C9_witness :
    ((reqHandler upstreamNotFound reqCourses).sent = some sentCourses ∧
      upstreamNotFound sentCourses = .ok respNotFound ∧
      respNotFound.Body = .ok "not found") ∧
    (Values.lookupAll (reqHandler upstreamNotFound reqCourses).response.Header "Content-Type" =
        ["application/json"] ↔ respNotFound.StatusCode = 200) ∧
    (respNotFound.StatusCode ≠ 200 →
      Values.Has (reqHandler upstreamNotFound reqCourses).response.Header "Content-Type" =
        false) :=
  ⟨⟨by decide, rfl, rfl⟩,
    C9_content_type_iff_200 upstreamNotFound reqCourses sentCourses respNotFound "not found"
      (by decide) rfl rfl⟩

/-- C10: for a non-empty `canvas_domain` value d, the host check
`regexp.MatchString(CANVAS_DOMAIN_PATTERN, d)` reports a match exactly when
one of the lines of d, delimited by line feeds, consists of one or more
lowercase ASCII letters followed by exactly `.instructure.com`; so an accepted
value is as a whole of that form or contains a line feed; and a request whose
value is not accepted gets status 400 with the body
`canvas_domain has bad format`. -/
theorem C10_host_check (d : String) (hne : d ≠ "") :
    (MatchString CANVAS_DOMAIN_PATTERN d = .ok true ↔
      ∃ l ∈ linesLF d.toList, HostName l) ∧
    (MatchString CANVAS_DOMAIN_PATTERN d = .ok true →
      HostName d.toList ∨ '\n' ∈ d.toList) ∧
    (MatchString CANVAS_DOMAIN_PATTERN d ≠ .ok true →
      ∀ (client : Upstream) (req : Request), req.Query.Get "canvas_domain" = d →
        (reqHandler client req).sent = none ∧
        (reqHandler client req).response.Status = 400 ∧
        (reqHandler client req).response.Body = "canvas_domain has bad format") := by
  refine ⟨matchString_iff_line d, fun hm => ?_, fun hm client req hd => ?_⟩
  · by_cases hlf : '\n' ∈ d.toList
    · exact Or.inr hlf
    · obtain ⟨l, hl, hh⟩ := (matchString_iff_line d).1 hm
      rw [linesLF_single _ hlf, List.mem_singleton] at hl
      exact Or.inl (hl ▸ hh)
  · have hfalse : MatchString CANVAS_DOMAIN_PATTERN d = .ok false :=
      matchString_false_of_no_line d (fun h => hm ((matchString_iff_line d).2 h))
    subst hd
    rw [handler_bad_format client req hne hfalse]
    exact ⟨rfl, rfl, rfl⟩

/-- C10 (witness): the two-line value `x\nschool.instructure.com`. -/
theorem C10_witness :
    "x\nschool.instructure.com" ≠ "" ∧
    (MatchString CANVAS_DOMAIN_PATTERN "x\nschool.instructure.com" = .ok true ↔
      ∃ l ∈ linesLF "x\nschool.instructure.com".toList, HostName l) ∧
    (MatchString CANVAS_DOMAIN_PATTERN "x\nschool.instructure.com" = .ok true →
      HostName "x\nschool.instructure.com".toList ∨
        '\n' ∈ "x\nschool.instructure.com".toList) ∧
    (MatchString CANVAS_DOMAIN_PATTERN "x\nschool.instructure.com" ≠ .ok true →
      ∀ (client : Upstream) (req : Request),
        req.Query.Get "canvas_domain" = "x\nschool.instructure.com" →
        (reqHandler client req).sent = none ∧
        (reqHandler client req).response.Status = 400 ∧
        (reqHandler client req).response.Body = "canvas_domain has bad format") :=
  ⟨by decide, C10_host_check "x\nschool.instructure.com" (by decide)⟩

end CanvasProxy
